import Mathlib

/-!
Verification development for the Web-Engine repository: a disk-based
inverted-index builder (`src/M1/DEVELOPER_OPTION/disk_indexer.py`,
`src/M1/ANALYST_OPTION/indexer.py`) and the M3 disk-backed search engine
(`src/M3/SRC/search_engine_m3.py`).

Python dictionaries are modelled as association lists that preserve
insertion order (as CPython dicts do); JSON files are modelled by the
decoded values they encode.  Floating-point scores are modelled as real
numbers with `Real.log` and `Real.sqrt` standing for `math.log` and
`math.sqrt`.
-/

namespace WebEngine

/-- A posting: the per-(term, doc) record `\x7btf, is_important\x7d`. -/
structure Posting where
  tf : Nat
  is_important : Bool
deriving DecidableEq

/-- A posting list: mapping from doc-id to posting, in insertion/file order. -/
abbrev PostingList := List (Nat × Posting)

/-- An inverted index: mapping from term to posting list. -/
abbrev Index := List (String × PostingList)

/-- Association-list lookup, modelling Python `dict.get` / `in`. -/
def alookup {K V : Type} [DecidableEq K] : List (K × V) → K → Option V
  | [], _ => none
  | (k, v) :: l, k0 => if k0 = k then some v else alookup l k0

/-- Association-list update, modelling Python `dict[k] = v`: overwrites in
place if the key exists, otherwise appends (CPython insertion order). -/
def aupdate {K V : Type} [DecidableEq K] : List (K × V) → K → V → List (K × V)
  | [], k0, v0 => [(k0, v0)]
  | (k, v) :: l, k0, v0 => if k0 = k then (k0, v0) :: l else (k, v) :: aupdate l k0 v0

theorem alookup_aupdate_self {K V : Type} [DecidableEq K] (l : List (K × V)) (k : K) (v : V) :
    alookup (aupdate l k v) k = some v := by
  induction l with
  | nil => simp [aupdate, alookup]
  | cons h t ih =>
    obtain ⟨k1, v1⟩ := h
    by_cases hk : k = k1
    · simp [aupdate, alookup, hk]
    · simp [aupdate, alookup, hk, ih]

theorem alookup_aupdate_ne {K V : Type} [DecidableEq K] (l : List (K × V)) (k k0 : K) (v : V)
    (h : k0 ≠ k) : alookup (aupdate l k v) k0 = alookup l k0 := by
  induction l with
  | nil => simp [aupdate, alookup, h]
  | cons hd t ih =>
    obtain ⟨k1, v1⟩ := hd
    by_cases hk : k = k1
    · subst hk
      simp [aupdate, alookup, h]
    · by_cases hk0 : k0 = k1
      · simp [aupdate, alookup, hk, hk0]
      · simp [aupdate, alookup, hk, hk0, ih]

/-- Double lookup into an inverted index: the posting stored for `(t, d)`,
modelling `self.index[t][d]` reads (with the defaultdict default absent). -/
def alookup2 (idx : Index) (t : String) (d : Nat) : Option Posting :=
  alookup ((alookup idx t).getD []) d

/-- `self.index[token][doc_id] = \x7b...\x7d` on the nested defaultdict:
upsert of the inner posting list, then of the outer map. -/
def indexUpsert (idx : Index) (t : String) (d : Nat) (p : Posting) : Index :=
  aupdate idx t (aupdate ((alookup idx t).getD []) d p)

/-- The loop `for token in unique_tokens` building the deduplicated list with
a `seen` set (`search_engine_m3.py::_process_query` and, as
`set(tokens) | set(important_tokens)`, the key set iterated by
`add_document`; for the latter the iteration order of the Python set is
immaterial because each key is written exactly once). -/
def dedupLoop (acc : List String) : List String → List String
  | [] => acc
  | t :: ts => if t ∈ acc then dedupLoop acc ts else dedupLoop (acc ++ [t]) ts

def dedup (l : List String) : List String := dedupLoop [] l

/-- The body of `add_document` shared verbatim by
`InvertedIndex.add_document` (`src/M1/ANALYST_OPTION/indexer.py`) and
`DiskBasedIndexer.add_document` (`src/M1/DEVELOPER_OPTION/disk_indexer.py`):
for every token of either stream, store
`tf = count_in_body + count_in_important` and
`is_important = (token in important_set) or tf_important > 0`. -/
def updateIndexWithDoc (idx : Index) (doc_id : Nat) (tokens important_tokens : List String) : Index :=
  (dedup (tokens ++ important_tokens)).foldl
    (fun acc token =>
      indexUpsert acc token doc_id
        ⟨tokens.count token + important_tokens.count token,
         decide (token ∈ important_tokens) || decide (0 < important_tokens.count token)⟩)
    idx

/-- In-memory inverted index of `src/M1/ANALYST_OPTION/indexer.py`. -/
structure InvertedIndex where
  index : Index
  doc_ids : List (String × Nat)
  doc_id_to_url : List (Nat × String)
  next_doc_id : Nat
deriving DecidableEq

def InvertedIndex.addDocument (st : InvertedIndex) (url : String)
    (tokens important_tokens : List String) : InvertedIndex :=
  match alookup st.doc_ids url with
  | some d => { st with index := updateIndexWithDoc st.index d tokens important_tokens }
  | none =>
    { st with
      doc_ids := aupdate st.doc_ids url st.next_doc_id
      doc_id_to_url := aupdate st.doc_id_to_url st.next_doc_id url
      next_doc_id := st.next_doc_id + 1
      index := updateIndexWithDoc st.index st.next_doc_id tokens important_tokens }

/-- `f'\x7bn:03d\x7d'`: zero-pad to at least three digits. -/
def natToPadded3 (n : Nat) : String :=
  if n < 10 then "00" ++ toString n
  else if n < 100 then "0" ++ toString n
  else toString n

def partialIndexFileName (n : Nat) : String :=
  "partial_index_" ++ natToPadded3 n ++ ".json"

def partialMappingFileName (n : Nat) : String :=
  "partial_mapping_" ++ natToPadded3 n ++ ".json"

/-- Content of a `doc_mapping` artifact. -/
structure DocMapSnapshot where
  url_to_id : List (String × Nat)
  id_to_url : List (Nat × String)
deriving DecidableEq

/-- State of `DiskBasedIndexer` (`src/M1/DEVELOPER_OPTION/disk_indexer.py`),
together with the files it has written: the partial-index directory is the
two file lists plus the `partialDirExists` flag, and the final artifacts are
the two `Option` fields (written by `finalize`). -/
structure DiskBasedIndexer where
  max_docs_in_memory : Nat
  index : Index
  doc_ids : List (String × Nat)
  doc_id_to_url : List (Nat × String)
  next_doc_id : Nat
  docs_in_memory : Nat
  partial_index_count : Nat
  partialIndexFiles : List (String × Index)
  partialMappingFiles : List (String × DocMapSnapshot)
  partialDirExists : Bool
  finalIndexFile : Option Index
  finalDocMappingFile : Option DocMapSnapshot
deriving DecidableEq

/-- `DiskBasedIndexer.__init__` with a given `max_docs_in_memory`. -/
def initBuilder (threshold : Nat) : DiskBasedIndexer :=
  ⟨threshold, [], [], [], 0, 0, 0, [], [], true, none, none⟩

/-- `_offload_to_disk`: returns unchanged when the accumulator is empty;
otherwise writes a numbered partial-index file and a doc-mapping snapshot,
increments the partial-index counter, clears the accumulator and resets the
in-memory document counter. -/
def offloadToDisk (st : DiskBasedIndexer) : DiskBasedIndexer :=
  if st.index = [] then st
  else
    { st with
      partialIndexFiles :=
        st.partialIndexFiles ++ [(partialIndexFileName st.partial_index_count, st.index)]
      partialMappingFiles :=
        st.partialMappingFiles ++
          [(partialMappingFileName st.partial_index_count, ⟨st.doc_ids, st.doc_id_to_url⟩)]
      partial_index_count := st.partial_index_count + 1
      index := []
      docs_in_memory := 0 }

/-- The in-memory part of `DiskBasedIndexer.add_document`: assign or
retrieve the doc-id, update the accumulator, increment the document
counter. -/
def DiskBasedIndexer.updateInMemory (st : DiskBasedIndexer) (url : String)
    (tokens important_tokens : List String) : DiskBasedIndexer :=
  let st1 :=
    match alookup st.doc_ids url with
    | some _ => st
    | none =>
      { st with
        doc_ids := aupdate st.doc_ids url st.next_doc_id
        doc_id_to_url := aupdate st.doc_id_to_url st.next_doc_id url
        next_doc_id := st.next_doc_id + 1 }
  let doc_id := (alookup st.doc_ids url).getD st.next_doc_id
  { st1 with
    index := updateIndexWithDoc st1.index doc_id tokens important_tokens
    docs_in_memory := st1.docs_in_memory + 1 }

/-- `DiskBasedIndexer.add_document`: the in-memory update, then
`_offload_to_disk` when the counter reaches `max_docs_in_memory`. -/
def DiskBasedIndexer.addDocument (st : DiskBasedIndexer) (url : String)
    (tokens important_tokens : List String) : DiskBasedIndexer :=
  let st2 := st.updateInMemory url tokens important_tokens
  if st2.max_docs_in_memory ≤ st2.docs_in_memory then offloadToDisk st2 else st2

/-- Coalescing of one incoming posting into the accumulated one
(`_merge_partial_indexes` inner loop): `tf` adds, `is_important` ORs. -/
def mergePosting (existing incoming : Posting) : Posting :=
  ⟨existing.tf + incoming.tf, existing.is_important || incoming.is_important⟩

/-- Inner loop of `_merge_partial_indexes`: coalesce one term's segment
posting list into the accumulator, reading the defaultdict default
`\x7btf: 0, is_important: False\x7d` for fresh `(term, doc-id)` pairs. -/
def mergeTermPostings (acc : Index) (t1 : String) (ps : PostingList) : Index :=
  ps.foldl
    (fun acc3 dp =>
      indexUpsert acc3 t1 dp.1
        (mergePosting ((alookup2 acc3 t1 dp.1).getD ⟨0, false⟩) dp.2))
    acc

/-- Merge one segment into the accumulator, coalescing per `(term, doc-id)`. -/
def mergeSegment (acc : Index) (seg : Index) : Index :=
  seg.foldl (fun acc2 tp => mergeTermPostings acc2 tp.1 tp.2) acc

/-- `_merge_partial_indexes` over the segments in file-number order. -/
def mergePartialIndexes (segs : List Index) : Index :=
  segs.foldl mergeSegment []

/-- `dict.update`: apply all entries of the second mapping over the first. -/
def unionUpdate {K V : Type} [DecidableEq K] (m m2 : List (K × V)) : List (K × V) :=
  m2.foldl (fun acc kv => aupdate acc kv.1 kv.2) m

/-- `_save_doc_mappings`: union of the per-segment snapshots, then the
current in-memory mappings. -/
def saveDocMappings (st : DiskBasedIndexer) : DocMapSnapshot :=
  let base :=
    st.partialMappingFiles.foldl
      (fun acc f => ⟨unionUpdate acc.url_to_id f.2.url_to_id, unionUpdate acc.id_to_url f.2.id_to_url⟩)
      (⟨[], []⟩ : DocMapSnapshot)
  ⟨unionUpdate base.url_to_id st.doc_ids, unionUpdate base.id_to_url st.doc_id_to_url⟩

/-- `finalize`: offload the remaining accumulator if non-empty, merge all
partial indexes (or save the in-memory index when none were written), save
the doc mappings, and delete the partial-index directory. -/
def DiskBasedIndexer.finalize (st : DiskBasedIndexer) : DiskBasedIndexer :=
  let st1 := if st.index = [] then st else offloadToDisk st
  let finalIdx :=
    if st1.partial_index_count = 0 then st1.index
    else mergePartialIndexes (st1.partialIndexFiles.map Prod.snd)
  let finalMap := saveDocMappings st1
  { st1 with
    finalIndexFile := some finalIdx
    finalDocMappingFile := some finalMap
    partialIndexFiles := []
    partialMappingFiles := []
    partialDirExists := false }

/-- `get_num_documents`. -/
def getNumDocuments (st : DiskBasedIndexer) : Nat :=
  if st.partial_index_count = 0 then st.doc_ids.length else st.next_doc_id

/-- A whole build: `add_document` over a list of
`(url, tokens, important_tokens)` records. -/
def buildIndex (threshold : Nat) (docs : List (String × List String × List String)) :
    DiskBasedIndexer :=
  docs.foldl (fun st doc => DiskBasedIndexer.addDocument st doc.1 doc.2.1 doc.2.2)
    (initBuilder threshold)

/-- State of `M3SearchEngine` (`src/M3/SRC/search_engine_m3.py`) after
construction: the on-disk index file (`none` when the file does not exist)
modelled by the mapping its JSON text encodes, and the loaded document
mappings.  The postings cache and document-frequency cache are semantically
transparent (they only store copies of values previously returned), so they
are not part of the model. -/
structure M3SearchEngine where
  indexFile : Option Index
  url_to_id : List (String × Nat)
  id_to_url : List (Nat × String)
  total_docs : Nat
deriving DecidableEq

def docMappingMissingMsg : String := "Document mapping file not found"

/-- `M3SearchEngine.__init__` / `_load_doc_mappings`: a missing doc-mapping
file raises `FileNotFoundError`; the index file is only `stat`-ed, its
absence is not an error.  `total_docs = len(url_to_id)`. -/
def M3SearchEngine.init (indexFileOnDisk : Option Index)
    (docMappingOnDisk : Option DocMapSnapshot) : Except String M3SearchEngine :=
  match docMappingOnDisk with
  | none => Except.error docMappingMissingMsg
  | some m => Except.ok ⟨indexFileOnDisk, m.url_to_id, m.id_to_url, m.url_to_id.length⟩

/-- `_get_postings_from_disk` (via `_get_postings`): a missing index file
yields `\x7b\x7d`; otherwise the term's object is extracted from the JSON text
(regex plus brace matching, modelled as lookup in the decoded mapping), and
an absent term yields `\x7b\x7d`. -/
def getPostings (eng : M3SearchEngine) (term : String) : PostingList :=
  match eng.indexFile with
  | none => []
  | some idx => (alookup idx term).getD []

/-- `_calculate_enhanced_tf_idf`: sublinear TF, smoothed IDF, 2x boost for
important postings; returns 0 when `df` or `total_docs` is 0. -/
noncomputable def calculateEnhancedTfIdf (tf df total_docs : Nat) (is_important : Bool) : ℝ :=
  if df = 0 ∨ total_docs = 0 then 0
  else
    let tf_score : ℝ := if 0 < tf then 1 + Real.log tf else 0
    let idf_score : ℝ := Real.log ((total_docs + 1) / (df + 1)) + 1
    let base_score := tf_score * idf_score
    if is_important then base_score * 2.0 else base_score

/-- The `term_postings` dict of `search`: each query term paired with its
postings, dropping terms whose posting list is empty. -/
def termPostings (eng : M3SearchEngine) (query_terms : List String) :
    List (String × PostingList) :=
  query_terms.filterMap (fun t =>
    let p := getPostings eng t
    if p = [] then none else some (t, p))

/-- Stable insertion into a list ascending by posting-list length. -/
def insertByLenAsc (x : String × PostingList) :
    List (String × PostingList) → List (String × PostingList)
  | [] => [x]
  | y :: ys => if x.2.length ≤ y.2.length then x :: y :: ys else y :: insertByLenAsc x ys

/-- `sorted(term_postings.items(), key=lambda x: len(x[1]))`: stable sort,
ascending by posting-list length. -/
def sortByLenAsc : List (String × PostingList) → List (String × PostingList)
  | [] => []
  | x :: xs => insertByLenAsc x (sortByLenAsc xs)

/-- The candidate set of `search`: doc-ids of the smallest surviving posting
list intersected with the key sets of the remaining surviving posting lists.
The program stores the candidates in a Python set whose iteration order is
implementation-defined (CPython hash-slot order); this list is a canonical
representative of that set (in the smallest posting list's order) and is
meant to model membership.  Statements that depend on the enumeration order
of the set take the enumeration as an explicit parameter
(`M3SearchEngine.searchWithEnum` below). -/
def candidateDocs (eng : M3SearchEngine) (query_terms : List String) : List Nat :=
  match sortByLenAsc (termPostings eng query_terms) with
  | [] => []
  | (_, first_postings) :: rest =>
    (first_postings.map Prod.fst).filter (fun d => rest.all (fun tp => (alookup tp.2 d).isSome))

/-- The score `search` assigns to candidate `d`: sum of
`_calculate_enhanced_tf_idf` over the query terms whose (non-empty) posting
list contains `d`, times 1.15 when all query terms matched, divided by
`sqrt(len(query_terms))` when the query has more than one term. -/
noncomputable def docScore (eng : M3SearchEngine) (query_terms : List String) (d : Nat) : ℝ :=
  let contribs := query_terms.filterMap (fun t =>
    let p := getPostings eng t
    if p = [] then none
    else
      match alookup p d with
      | none => none
      | some posting =>
        some (calculateEnhancedTfIdf posting.tf p.length eng.total_docs posting.is_important))
  let base := contribs.sum
  let withBonus := if contribs.length = query_terms.length then base * 1.15 else base
  if 1 < query_terms.length then withBonus / Real.sqrt query_terms.length else withBonus

/-- Stable insertion into a list descending by score. -/
noncomputable def insertByScoreDesc (x : Nat × ℝ) : List (Nat × ℝ) → List (Nat × ℝ)
  | [] => [x]
  | y :: ys => if y.2 ≤ x.2 then x :: y :: ys else y :: insertByScoreDesc x ys

/-- `sorted(doc_scores.items(), key=lambda x: x[1], reverse=True)`: stable
sort, descending by score; ties keep the enumeration order of the
candidates. -/
noncomputable def sortByScoreDesc : List (Nat × ℝ) → List (Nat × ℝ)
  | [] => []
  | x :: xs => insertByScoreDesc x (sortByScoreDesc xs)

/-- `M3SearchEngine.search` from the stemmed token stream of the query on
(tokenizer and stemmer are the external components A and B of the spec):
deduplicate, fetch postings, intersect, score, sort, truncate to `top_k`,
and resolve doc-ids to URLs (dropping ids absent from `id_to_url`). -/
noncomputable def M3SearchEngine.search (eng : M3SearchEngine)
    (stemmedTokens : List String) (top_k : Nat) : List (String × ℝ) :=
  let query_terms := dedup stemmedTokens
  if query_terms = [] then []
  else if termPostings eng query_terms = [] then []
  else
    let cds := candidateDocs eng query_terms
    if cds = [] then []
    else
      let doc_scores := cds.map (fun d => (d, docScore eng query_terms d))
      let sorted_docs := sortByScoreDesc doc_scores
      (sorted_docs.take top_k).filterMap (fun ds =>
        (alookup eng.id_to_url ds.1).map (fun url => (url, ds.2)))

/-- `M3SearchEngine.search` with the iteration order of the Python set
`candidate_docs` made explicit: CPython enumerates the set in hash-slot
order, which is implementation-defined, so the model takes the enumeration
(a duplicate-free listing of the candidate set) as a parameter.
`M3SearchEngine.search` above is the instantiation at the canonical
candidate list; membership-level statements are unaffected by the
choice. -/
noncomputable def M3SearchEngine.searchWithEnum (eng : M3SearchEngine)
    (stemmedTokens : List String) (top_k : Nat) (enum : List Nat) : List (String × ℝ) :=
  let query_terms := dedup stemmedTokens
  if query_terms = [] then []
  else if termPostings eng query_terms = [] then []
  else if enum = [] then []
  else
    let doc_scores := enum.map (fun d => (d, docScore eng query_terms d))
    let sorted_docs := sortByScoreDesc doc_scores
    (sorted_docs.take top_k).filterMap (fun ds =>
      (alookup eng.id_to_url ds.1).map (fun url => (url, ds.2)))

theorem search_eq_searchWithEnum (eng : M3SearchEngine) (toks : List String) (k : Nat) :
    eng.search toks k = eng.searchWithEnum toks k (candidateDocs eng (dedup toks)) := rfl

/-- The scoring formula exactly as the specification words it (spec §4.G
step 4 and claim C2): `q'` is the number of query terms whose posting list
contains `d`, and the sum ranges over those matched terms. -/
noncomputable def specScore (eng : M3SearchEngine) (query_terms : List String) (d : Nat) : ℝ :=
  let matched := query_terms.filter (fun t => (alookup (getPostings eng t) d).isSome)
  1.15 * (1 / Real.sqrt matched.length) *
    (matched.map (fun t =>
      (if ((alookup (getPostings eng t) d).getD ⟨0, false⟩).is_important then (2.0 : ℝ) else 1.0) *
      (if 0 < ((alookup (getPostings eng t) d).getD ⟨0, false⟩).tf then
        1 + Real.log (((alookup (getPostings eng t) d).getD ⟨0, false⟩).tf : ℝ) else 0) *
      (Real.log ((eng.total_docs + 1) / ((getPostings eng t).length + 1)) + 1))).sum

section Lemmas

theorem mem_dedupLoop (l acc : List String) (a : String) :
    a ∈ dedupLoop acc l ↔ a ∈ acc ∨ a ∈ l := by
  induction l generalizing acc with
  | nil => simp [dedupLoop]
  | cons t ts ih =>
    by_cases ht : t ∈ acc
    · simp only [dedupLoop, ht, if_pos, ih, List.mem_cons]
      constructor
      · rintro (h | h) <;> tauto
      · rintro (h | h | h) <;> subst_eqs <;> tauto
    · simp only [dedupLoop, ht, if_neg, not_false_iff, ih, List.mem_append,
        List.mem_singleton, List.mem_cons]
      tauto

theorem mem_dedup (l : List String) (a : String) : a ∈ dedup l ↔ a ∈ l := by
  simp [dedup, mem_dedupLoop]

theorem nodup_dedupLoop (l : List String) (acc : List String) (h : acc.Nodup) :
    (dedupLoop acc l).Nodup := by
  induction l generalizing acc with
  | nil => simpa [dedupLoop] using h
  | cons t ts ih =>
    by_cases ht : t ∈ acc
    · simpa [dedupLoop, ht] using ih acc h
    · have hx : (acc ++ [t]).Nodup := by simp [List.nodup_append, h, ht]
      simpa [dedupLoop, ht] using ih (acc ++ [t]) hx

theorem nodup_dedup (l : List String) : (dedup l).Nodup :=
  nodup_dedupLoop l [] List.nodup_nil

theorem dedup_ne_nil (l : List String) (h : l ≠ []) : dedup l ≠ [] := by
  obtain ⟨a, ha⟩ := List.exists_mem_of_ne_nil l h
  intro hcon
  have := (mem_dedup l a).mpr ha
  simp [hcon] at this

theorem aupdate_ne_nil {K V : Type} [DecidableEq K] (l : List (K × V)) (k : K) (v : V) :
    aupdate l k v ≠ [] := by
  cases l with
  | nil => simp [aupdate]
  | cons h t =>
    obtain ⟨k1, v1⟩ := h
    by_cases hk : k = k1 <;> simp [aupdate, hk]

theorem indexUpsert_ne_nil (idx : Index) (t : String) (d : Nat) (p : Posting) :
    indexUpsert idx t d p ≠ [] :=
  aupdate_ne_nil idx t (aupdate ((alookup idx t).getD []) d p)

theorem alookup2_indexUpsert_self (idx : Index) (t : String) (d : Nat) (p : Posting) :
    alookup2 (indexUpsert idx t d p) t d = some p := by
  unfold alookup2 indexUpsert
  rw [alookup_aupdate_self]
  simp [alookup_aupdate_self]

theorem alookup2_indexUpsert_ne (idx : Index) (t : String) (d : Nat) (p : Posting)
    (u : String) (e : Nat) (h : u ≠ t ∨ e ≠ d) :
    alookup2 (indexUpsert idx t d p) u e = alookup2 idx u e := by
  rcases h with h | h
  · unfold alookup2 indexUpsert
    rw [alookup_aupdate_ne _ _ _ _ h]
  · by_cases hu : u = t
    · subst hu
      unfold alookup2 indexUpsert
      rw [alookup_aupdate_self]
      simp only [Option.getD_some]
      exact alookup_aupdate_ne _ _ _ _ h
    · unfold alookup2 indexUpsert
      rw [alookup_aupdate_ne _ _ _ _ hu]

theorem foldl_indexUpsert_notmem (keys : List String) (g : String → Posting) (d : Nat)
    (idx : Index) (u : String) (hu : u ∉ keys) (e : Nat) :
    alookup2 (keys.foldl (fun acc k => indexUpsert acc k d (g k)) idx) u e =
      alookup2 idx u e := by
  induction keys generalizing idx with
  | nil => rfl
  | cons k ks ih =>
    have hne : u ≠ k := fun hc => hu (hc ▸ List.mem_cons_self k ks)
    have hks : u ∉ ks := fun hc => hu (List.mem_cons_of_mem k hc)
    simp only [List.foldl_cons]
    rw [ih _ hks, alookup2_indexUpsert_ne _ _ _ _ _ _ (Or.inl hne)]

theorem foldl_indexUpsert_mem (keys : List String) (hnd : keys.Nodup) (g : String → Posting)
    (d : Nat) (idx : Index) (u : String) (hu : u ∈ keys) :
    alookup2 (keys.foldl (fun acc k => indexUpsert acc k d (g k)) idx) u d = some (g u) := by
  induction keys generalizing idx with
  | nil => cases hu
  | cons k ks ih =>
    simp only [List.foldl_cons]
    rcases List.mem_cons.mp hu with h | h
    · subst h
      have hnotin : u ∉ ks := (List.nodup_cons.mp hnd).1
      rw [foldl_indexUpsert_notmem ks g d _ u hnotin d, alookup2_indexUpsert_self]
    · exact ih (List.nodup_cons.mp hnd).2 _ h

theorem foldl_indexUpsert_ne_nil (keys : List String) (hne : keys ≠ []) (g : String → Posting)
    (d : Nat) (idx : Index) :
    keys.foldl (fun acc k => indexUpsert acc k d (g k)) idx ≠ [] := by
  induction keys generalizing idx with
  | nil => exact absurd rfl hne
  | cons k ks ih =>
    simp only [List.foldl_cons]
    cases hks : ks with
    | nil => simpa [hks] using indexUpsert_ne_nil idx k d (g k)
    | cons a l => exact hks ▸ ih (by simp [hks]) _

/-- The posting `updateIndexWithDoc` stores for a term occurring in either
stream: `tf` is the sum of the two occurrence counts and `is_important`
records occurrence in the important stream. -/
theorem updateIndexWithDoc_lookup (idx : Index) (d : Nat) (tokens important_tokens : List String)
    (t : String) (ht : t ∈ tokens ∨ t ∈ important_tokens) :
    alookup2 (updateIndexWithDoc idx d tokens important_tokens) t d =
      some ⟨tokens.count t + important_tokens.count t, decide (t ∈ important_tokens)⟩ := by
  unfold updateIndexWithDoc
  have hmem : t ∈ dedup (tokens ++ important_tokens) := by
    rw [mem_dedup, List.mem_append]; exact ht
  rw [foldl_indexUpsert_mem _ (nodup_dedup _) _ _ _ _ hmem]
  congr 2
  by_cases hi : t ∈ important_tokens
  · simp [hi]
  · simp [hi, List.count_eq_zero_of_not_mem hi]

theorem updateIndexWithDoc_lookup_other (idx : Index) (d : Nat)
    (tokens important_tokens : List String) (u : String) (e : Nat)
    (hu : u ∉ tokens ∧ u ∉ important_tokens ∨ e ≠ d) :
    alookup2 (updateIndexWithDoc idx d tokens important_tokens) u e = alookup2 idx u e := by
  unfold updateIndexWithDoc
  rcases hu with ⟨h1, h2⟩ | h
  · refine foldl_indexUpsert_notmem _ _ _ _ _ ?_ _
    rw [mem_dedup, List.mem_append]
    rintro (hc | hc) <;> [exact h1 hc; exact h2 hc]
  · induction (dedup (tokens ++ important_tokens)) generalizing idx with
    | nil => rfl
    | cons k ks ih =>
      simp only [List.foldl_cons]
      rw [ih]
      exact alookup2_indexUpsert_ne _ _ _ _ _ _ (Or.inr h)

theorem updateIndexWithDoc_ne_nil (idx : Index) (d : Nat)
    (tokens important_tokens : List String)
    (h : tokens ≠ [] ∨ important_tokens ≠ []) :
    updateIndexWithDoc idx d tokens important_tokens ≠ [] := by
  unfold updateIndexWithDoc
  refine foldl_indexUpsert_ne_nil _ (dedup_ne_nil _ ?_) _ _ _
  rcases h with h | h <;> simp [h]

end Lemmas

/-! String constants used by the concrete instances below. -/

def wU : String := "u"
def wV : String := "v"
def wX : String := "x"
def wY : String := "y"
def wZ : String := "z"
def uA : String := "ua"
def uB : String := "ub"

section BuilderLemmas

variable (st : DiskBasedIndexer) (url : String) (tokens important_tokens : List String)

theorem updateInMemory_index :
    (st.updateInMemory url tokens important_tokens).index =
      updateIndexWithDoc st.index ((alookup st.doc_ids url).getD st.next_doc_id)
        tokens important_tokens := by
  cases h : alookup st.doc_ids url <;> simp [DiskBasedIndexer.updateInMemory, h]

theorem updateInMemory_docs :
    (st.updateInMemory url tokens important_tokens).docs_in_memory =
      st.docs_in_memory + 1 := by
  cases h : alookup st.doc_ids url <;> simp [DiskBasedIndexer.updateInMemory, h]

theorem updateInMemory_max :
    (st.updateInMemory url tokens important_tokens).max_docs_in_memory =
      st.max_docs_in_memory := by
  cases h : alookup st.doc_ids url <;> simp [DiskBasedIndexer.updateInMemory, h]

theorem updateInMemory_count :
    (st.updateInMemory url tokens important_tokens).partial_index_count =
      st.partial_index_count := by
  cases h : alookup st.doc_ids url <;> simp [DiskBasedIndexer.updateInMemory, h]

theorem updateInMemory_files :
    (st.updateInMemory url tokens important_tokens).partialIndexFiles =
      st.partialIndexFiles := by
  cases h : alookup st.doc_ids url <;> simp [DiskBasedIndexer.updateInMemory, h]

theorem updateInMemory_mapfiles :
    (st.updateInMemory url tokens important_tokens).partialMappingFiles =
      st.partialMappingFiles := by
  cases h : alookup st.doc_ids url <;> simp [DiskBasedIndexer.updateInMemory, h]

theorem updateInMemory_doc_ids_fresh (h : alookup st.doc_ids url = none) :
    (st.updateInMemory url tokens important_tokens).doc_ids =
      aupdate st.doc_ids url st.next_doc_id := by
  simp [DiskBasedIndexer.updateInMemory, h]

theorem updateInMemory_doc_id_to_url_fresh (h : alookup st.doc_ids url = none) :
    (st.updateInMemory url tokens important_tokens).doc_id_to_url =
      aupdate st.doc_id_to_url st.next_doc_id url := by
  simp [DiskBasedIndexer.updateInMemory, h]

theorem updateInMemory_next_fresh (h : alookup st.doc_ids url = none) :
    (st.updateInMemory url tokens important_tokens).next_doc_id = st.next_doc_id + 1 := by
  simp [DiskBasedIndexer.updateInMemory, h]

theorem offloadToDisk_doc_ids : (offloadToDisk st).doc_ids = st.doc_ids := by
  unfold offloadToDisk
  split <;> rfl

theorem offloadToDisk_doc_id_to_url : (offloadToDisk st).doc_id_to_url = st.doc_id_to_url := by
  unfold offloadToDisk
  split <;> rfl

theorem offloadToDisk_next : (offloadToDisk st).next_doc_id = st.next_doc_id := by
  unfold offloadToDisk
  split <;> rfl

theorem offloadToDisk_max : (offloadToDisk st).max_docs_in_memory = st.max_docs_in_memory := by
  unfold offloadToDisk
  split <;> rfl

theorem offloadToDisk_docs_of_ne (h : st.index ≠ []) : (offloadToDisk st).docs_in_memory = 0 := by
  unfold offloadToDisk
  rw [if_neg h]

theorem offloadToDisk_index_of_ne (h : st.index ≠ []) : (offloadToDisk st).index = [] := by
  unfold offloadToDisk
  rw [if_neg h]

theorem offloadToDisk_count_of_ne (h : st.index ≠ []) :
    (offloadToDisk st).partial_index_count = st.partial_index_count + 1 := by
  unfold offloadToDisk
  rw [if_neg h]

theorem offloadToDisk_files_of_ne (h : st.index ≠ []) :
    (offloadToDisk st).partialIndexFiles =
      st.partialIndexFiles ++ [(partialIndexFileName st.partial_index_count, st.index)] := by
  unfold offloadToDisk
  rw [if_neg h]

theorem offloadToDisk_mapfiles_of_ne (h : st.index ≠ []) :
    (offloadToDisk st).partialMappingFiles =
      st.partialMappingFiles ++
        [(partialMappingFileName st.partial_index_count, ⟨st.doc_ids, st.doc_id_to_url⟩)] := by
  unfold offloadToDisk
  rw [if_neg h]

theorem addDocument_of_spill (h : st.max_docs_in_memory ≤ st.docs_in_memory + 1) :
    st.addDocument url tokens important_tokens =
      offloadToDisk (st.updateInMemory url tokens important_tokens) := by
  unfold DiskBasedIndexer.addDocument
  rw [if_pos]
  rw [updateInMemory_max, updateInMemory_docs]
  exact h

theorem addDocument_of_no_spill (h : ¬ st.max_docs_in_memory ≤ st.docs_in_memory + 1) :
    st.addDocument url tokens important_tokens =
      st.updateInMemory url tokens important_tokens := by
  unfold DiskBasedIndexer.addDocument
  rw [if_neg]
  rw [updateInMemory_max, updateInMemory_docs]
  exact h

end BuilderLemmas

theorem InvertedIndex.addDocument_index (st : InvertedIndex) (url : String)
    (tokens important_tokens : List String) :
    (st.addDocument url tokens important_tokens).index =
      updateIndexWithDoc st.index ((alookup st.doc_ids url).getD st.next_doc_id)
        tokens important_tokens := by
  cases h : alookup st.doc_ids url <;> simp [InvertedIndex.addDocument, h]

theorem DiskBasedIndexer.addDocument_index_of_no_spill (st : DiskBasedIndexer) (url : String)
    (tokens important_tokens : List String)
    (hns : st.docs_in_memory + 1 < st.max_docs_in_memory) :
    (st.addDocument url tokens important_tokens).index =
      updateIndexWithDoc st.index ((alookup st.doc_ids url).getD st.next_doc_id)
        tokens important_tokens := by
  rw [addDocument_of_no_spill st url tokens important_tokens (Nat.not_le.mpr hns)]
  rw [updateInMemory_index]

/-- C3: after `add_document(url, body_tokens, important_tokens)` — in the
analyst indexer, and in the disk indexer when no spill triggers — the
posting stored for each term occurring in either token stream has `tf`
equal to the occurrences in the body stream plus the occurrences in the
important stream, `is_important` true iff the term occurs in the important
stream, and hence `tf ≥ 1`. -/
theorem claim_C3_tf_and_flag (st : InvertedIndex) (dst : DiskBasedIndexer) (url : String)
    (tokens important_tokens : List String) (t : String)
    (ht : t ∈ tokens ∨ t ∈ important_tokens)
    (hns : dst.docs_in_memory + 1 < dst.max_docs_in_memory) :
    alookup2 (st.addDocument url tokens important_tokens).index t
        ((alookup st.doc_ids url).getD st.next_doc_id) =
      some ⟨tokens.count t + important_tokens.count t, decide (t ∈ important_tokens)⟩ ∧
    alookup2 (dst.addDocument url tokens important_tokens).index t
        ((alookup dst.doc_ids url).getD dst.next_doc_id) =
      some ⟨tokens.count t + important_tokens.count t, decide (t ∈ important_tokens)⟩ ∧
    1 ≤ tokens.count t + important_tokens.count t := by
  refine ⟨?_, ?_, ?_⟩
  · rw [InvertedIndex.addDocument_index]
    exact updateIndexWithDoc_lookup _ _ _ _ _ ht
  · rw [DiskBasedIndexer.addDocument_index_of_no_spill _ _ _ _ hns]
    exact updateIndexWithDoc_lookup _ _ _ _ _ ht
  · rcases ht with h | h
    · have := List.count_pos_iff.mpr h
      omega
    · have := List.count_pos_iff.mpr h
      omega

/-- Witness for C3 at a concrete document: body `[x, y, x]`, important
stream `[x]`, so the posting for `x` is `\x7btf: 3, is_important: true\x7d`. -/
theorem claim_C3_tf_and_flag_witness :
    alookup2 ((InvertedIndex.mk [] [] [] 0).addDocument wU [wX, wY, wX] [wX]).index wX
        ((alookup ([] : List (String × Nat)) wU).getD 0) =
      some ⟨[wX, wY, wX].count wX + [wX].count wX, decide (wX ∈ [wX])⟩ ∧
    alookup2 ((initBuilder 5).addDocument wU [wX, wY, wX] [wX]).index wX
        ((alookup ([] : List (String × Nat)) wU).getD 0) =
      some ⟨[wX, wY, wX].count wX + [wX].count wX, decide (wX ∈ [wX])⟩ ∧
    1 ≤ [wX, wY, wX].count wX + [wX].count wX :=
  claim_C3_tf_and_flag (InvertedIndex.mk [] [] [] 0) (initBuilder 5) wU
    [wX, wY, wX] [wX] wX (Or.inl (by decide)) (by decide)

/-! Merger correctness (C4). -/

/-- Wellformedness of a segment file: term keys are unique and each posting
list has unique doc-id keys (true of every segment the Builder writes,
since both levels serialize Python dicts). -/
def SegWF (seg : Index) : Prop :=
  (seg.map Prod.fst).Nodup ∧ ∀ tp ∈ seg, (tp.2.map Prod.fst).Nodup

theorem alookup_eq_none_iff {K V : Type} [DecidableEq K] (l : List (K × V)) (k : K) :
    alookup l k = none ↔ k ∉ l.map Prod.fst := by
  induction l with
  | nil => simp [alookup]
  | cons h t ih =>
    obtain ⟨k1, v1⟩ := h
    by_cases hk : k = k1 <;> simp [alookup, hk, ih]

instance (seg : Index) : Decidable (SegWF seg) := by
  unfold SegWF
  infer_instance

theorem alookup_isSome_iff {K V : Type} [DecidableEq K] (l : List (K × V)) (k : K) :
    (alookup l k).isSome = true ↔ k ∈ l.map Prod.fst := by
  cases h : alookup l k with
  | none => simp [(alookup_eq_none_iff l k).mp h]
  | some v =>
    constructor
    · intro _
      by_contra hmem
      rw [← alookup_eq_none_iff] at hmem
      rw [h] at hmem
      cases hmem
    · intro _
      rfl

theorem mergeTermPostings_nil (acc : Index) (t1 : String) :
    mergeTermPostings acc t1 [] = acc := rfl

theorem mergeTermPostings_cons (acc : Index) (t1 : String) (dp : Nat × Posting)
    (rest : PostingList) :
    mergeTermPostings acc t1 (dp :: rest) =
      mergeTermPostings
        (indexUpsert acc t1 dp.1
          (mergePosting ((alookup2 acc t1 dp.1).getD ⟨0, false⟩) dp.2))
        t1 rest := rfl

theorem mergeSegment_nil (acc : Index) : mergeSegment acc [] = acc := rfl

theorem mergeSegment_cons (acc : Index) (tp : String × PostingList) (rest : Index) :
    mergeSegment acc (tp :: rest) = mergeSegment (mergeTermPostings acc tp.1 tp.2) rest := rfl

theorem mergeTermPostings_lookup_ne (acc : Index) (t1 : String) (ps : PostingList)
    (u : String) (e : Nat) (h : u ≠ t1) :
    alookup2 (mergeTermPostings acc t1 ps) u e = alookup2 acc u e := by
  induction ps generalizing acc with
  | nil => rfl
  | cons dp rest ih =>
    rw [mergeTermPostings_cons, ih, alookup2_indexUpsert_ne _ _ _ _ _ _ (Or.inl h)]

theorem mergeTermPostings_lookup_self (acc : Index) (t1 : String) (ps : PostingList)
    (e : Nat) (hnd : (ps.map Prod.fst).Nodup) :
    alookup2 (mergeTermPostings acc t1 ps) t1 e =
      match alookup ps e with
      | none => alookup2 acc t1 e
      | some p => some (mergePosting ((alookup2 acc t1 e).getD ⟨0, false⟩) p) := by
  induction ps generalizing acc with
  | nil => rfl
  | cons dp rest ih =>
    obtain ⟨d1, p1⟩ := dp
    simp only [List.map_cons, List.nodup_cons] at hnd
    rw [mergeTermPostings_cons, ih _ hnd.2]
    by_cases he : e = d1
    · subst he
      have hrest : alookup rest e = none := (alookup_eq_none_iff rest e).mpr hnd.1
      rw [hrest]
      have hcons : alookup ((e, p1) :: rest) e = some p1 := by simp [alookup]
      rw [hcons, alookup2_indexUpsert_self]
    · have hcons : alookup ((d1, p1) :: rest) e = alookup rest e := by
        simp [alookup, he]
      rw [hcons,
        alookup2_indexUpsert_ne _ _ _ _ _ _ (Or.inr he)]

theorem mergeSegment_lookup (acc seg : Index) (t : String) (d : Nat) (hwf : SegWF seg) :
    alookup2 (mergeSegment acc seg) t d =
      match alookup2 seg t d with
      | none => alookup2 acc t d
      | some p => some (mergePosting ((alookup2 acc t d).getD ⟨0, false⟩) p) := by
  induction seg generalizing acc with
  | nil => rfl
  | cons tp rest ih =>
    obtain ⟨t1, ps1⟩ := tp
    obtain ⟨hkeys, hinner⟩ := hwf
    simp only [List.map_cons, List.nodup_cons] at hkeys
    have hwfrest : SegWF rest := ⟨hkeys.2, fun tp h => hinner tp (List.mem_cons_of_mem _ h)⟩
    have hps1 : (ps1.map Prod.fst).Nodup := hinner (t1, ps1) (List.mem_cons_self _ _)
    rw [mergeSegment_cons, ih _ hwfrest]
    by_cases htt : t = t1
    · subst htt
      have hrest : alookup2 rest t d = none := by
        unfold alookup2
        rw [(alookup_eq_none_iff rest t).mpr hkeys.1]
        rfl
      have hcons : alookup2 ((t, ps1) :: rest) t d = alookup ps1 d := by
        unfold alookup2
        simp [alookup]
      rw [hrest, hcons, mergeTermPostings_lookup_self _ _ _ _ hps1]
    · have hcons : alookup2 ((t1, ps1) :: rest) t d = alookup2 rest t d := by
        unfold alookup2
        simp [alookup, htt]
      rw [hcons, mergeTermPostings_lookup_ne _ _ _ _ _ htt]

theorem foldl_mergeSegment_lookup (segs : List Index) (t : String) (d : Nat)
    (hwf : ∀ s ∈ segs, SegWF s) (acc : Index) :
    alookup2 (segs.foldl mergeSegment acc) t d =
      if segs.all (fun s => (alookup2 s t d).isNone)
      then alookup2 acc t d
      else
        some ⟨((alookup2 acc t d).getD ⟨0, false⟩).tf +
            (segs.map (fun s => ((alookup2 s t d).getD ⟨0, false⟩).tf)).sum,
          ((alookup2 acc t d).getD ⟨0, false⟩).is_important ||
            segs.any (fun s => ((alookup2 s t d).getD ⟨0, false⟩).is_important)⟩ := by
  induction segs generalizing acc with
  | nil => simp
  | cons s rest ih =>
    have hs : SegWF s := hwf s (List.mem_cons_self _ _)
    have hrest : ∀ x ∈ rest, SegWF x := fun x h => hwf x (List.mem_cons_of_mem _ h)
    simp only [List.foldl_cons]
    rw [ih hrest (mergeSegment acc s)]
    cases hsl : alookup2 s t d with
    | none =>
      have hms := mergeSegment_lookup acc s t d hs
      rw [hsl] at hms
      by_cases hall : rest.all (fun s => (alookup2 s t d).isNone)
      · simp [hall, hsl, hms]
      · simp only [hall, if_false, List.all_cons, hsl, Option.isNone_none, Bool.true_and,
          List.map_cons, List.sum_cons, List.any_cons, hms, Option.getD_none]
        simp
    | some p =>
      have hms := mergeSegment_lookup acc s t d hs
      rw [hsl] at hms
      have hconsall : ((s :: rest).all (fun s => (alookup2 s t d).isNone)) = false := by
        simp [hsl]
      by_cases hall : rest.all (fun s => (alookup2 s t d).isNone)
      · have hsum : (rest.map (fun s => ((alookup2 s t d).getD ⟨0, false⟩).tf)).sum = 0 := by
          refine List.sum_eq_zero ?_
          intro x hx
          simp only [List.mem_map] at hx
          obtain ⟨s2, hs2, hval⟩ := hx
          have := (List.all_eq_true.mp hall) s2 hs2
          rw [Option.isNone_iff_eq_none] at this
          rw [← hval, this]
          rfl
        have hany : (rest.any (fun s => ((alookup2 s t d).getD ⟨0, false⟩).is_important)) = false := by
          rw [List.any_eq_false]
          intro s2 hs2
          have := (List.all_eq_true.mp hall) s2 hs2
          rw [Option.isNone_iff_eq_none] at this
          rw [this]
          simp
        simp only [hall, if_true, hms, hconsall, Bool.false_eq_true, if_false,
          List.map_cons, List.sum_cons, List.any_cons, hsl, hsum, hany, Bool.or_false]
        simp [mergePosting]
      · simp only [hall, if_false, hms, hconsall, Bool.false_eq_true, List.map_cons,
          List.sum_cons, List.any_cons, hsl]
        simp only [Option.getD_some, mergePosting, Option.some.injEq, Posting.mk.injEq]
        constructor
        · omega
        · rw [Bool.or_assoc]

theorem mergePartialIndexes_lookup (segs : List Index) (t : String) (d : Nat)
    (hwf : ∀ s ∈ segs, SegWF s) :
    alookup2 (mergePartialIndexes segs) t d =
      if segs.all (fun s => (alookup2 s t d).isNone)
      then none
      else
        some ⟨(segs.map (fun s => ((alookup2 s t d).getD ⟨0, false⟩).tf)).sum,
          segs.any (fun s => ((alookup2 s t d).getD ⟨0, false⟩).is_important)⟩ := by
  unfold mergePartialIndexes
  rw [foldl_mergeSegment_lookup segs t d hwf []]
  have h0 : alookup2 ([] : Index) t d = none := rfl
  rw [h0]
  by_cases hall : segs.all (fun s => (alookup2 s t d).isNone) <;> simp [hall]

/-- C4: when the Merger combines the postings for the same `(term, doc-id)`
across segments, the merged posting's `tf` is the sum of the segment `tf`s
and its `is_important` is the logical OR of the segment flags; in
particular a `(term, doc)` pair important in any segment is important (and
present) in the merged index. -/
theorem claim_C4_merge_coalesce (segs : List Index) (t : String) (d : Nat)
    (hwf : ∀ s ∈ segs, SegWF s) :
    (∀ p, alookup2 (mergePartialIndexes segs) t d = some p →
      p.tf = (segs.map (fun s => ((alookup2 s t d).getD ⟨0, false⟩).tf)).sum ∧
      p.is_important =
        segs.any (fun s => ((alookup2 s t d).getD ⟨0, false⟩).is_important)) ∧
    (∀ s ∈ segs, (alookup2 s t d).isSome →
      (alookup2 (mergePartialIndexes segs) t d).isSome) ∧
    (∀ s ∈ segs, ∀ q, alookup2 s t d = some q → q.is_important = true →
      ∃ p, alookup2 (mergePartialIndexes segs) t d = some p ∧ p.is_important = true) := by
  rw [mergePartialIndexes_lookup segs t d hwf]
  by_cases hall : segs.all (fun s => (alookup2 s t d).isNone)
  · refine ⟨?_, ?_, ?_⟩
    · intro p hp
      rw [if_pos hall] at hp
      cases hp
    · intro s hs hsome
      have := (List.all_eq_true.mp hall) s hs
      rw [Option.isNone_iff_eq_none] at this
      rw [this] at hsome
      cases hsome
    · intro s hs q hq _
      have := (List.all_eq_true.mp hall) s hs
      rw [Option.isNone_iff_eq_none] at this
      rw [this] at hq
      cases hq
  · rw [if_neg hall]
    refine ⟨?_, ?_, ?_⟩
    · intro p hp
      cases hp
      exact ⟨rfl, rfl⟩
    · intro s hs hsome
      rfl
    · intro s hs q hq himp
      refine ⟨_, rfl, ?_⟩
      simp only []
      rw [List.any_eq_true]
      exact ⟨s, hs, by rw [hq]; simpa using himp⟩

def c4seg1 : Index := [(wX, [(0, ⟨2, false⟩)])]
def c4seg2 : Index := [(wX, [(0, ⟨3, true⟩)])]

/-- Witness for C4 on two concrete one-term segments: tf 2 + 3, flags
false OR true. -/
theorem claim_C4_merge_coalesce_witness :
    (∀ p, alookup2 (mergePartialIndexes [c4seg1, c4seg2]) wX 0 = some p →
      p.tf = ([c4seg1, c4seg2].map (fun s => ((alookup2 s wX 0).getD ⟨0, false⟩).tf)).sum ∧
      p.is_important =
        [c4seg1, c4seg2].any (fun s => ((alookup2 s wX 0).getD ⟨0, false⟩).is_important)) ∧
    (∀ s ∈ [c4seg1, c4seg2], (alookup2 s wX 0).isSome →
      (alookup2 (mergePartialIndexes [c4seg1, c4seg2]) wX 0).isSome) ∧
    (∀ s ∈ [c4seg1, c4seg2], ∀ q, alookup2 s wX 0 = some q → q.is_important = true →
      ∃ p, alookup2 (mergePartialIndexes [c4seg1, c4seg2]) wX 0 = some p ∧
        p.is_important = true) :=
  claim_C4_merge_coalesce [c4seg1, c4seg2] wX 0 (by decide)

/-! Builder lifecycle (C6, C7, C10). -/


/-- C6 counterexample: with `spill_threshold_docs = 1`, adding a document
with no tokens leaves the in-memory document counter at 1, not strictly
below the threshold: `_offload_to_disk` returns early on an empty
accumulator without resetting the counter. -/
theorem claim_C6_counterexample :
    ¬ ((initBuilder 1).addDocument wU [] []).docs_in_memory <
        (initBuilder 1).max_docs_in_memory := by
  decide

/-- C6 (amended): when the added document has at least one token, reaching
the threshold during `add_document` runs the spill, which writes a new
numbered segment file plus a doc-mapping snapshot, clears the accumulator
and resets the counter to zero; so after the call the counter is strictly
below the (positive) threshold.  (Without tokens the accumulator can be
empty and the spill returns without resetting the counter.) -/
theorem claim_C6_spill_behavior (st : DiskBasedIndexer) (url : String)
    (tokens important_tokens : List String)
    (hpos : 0 < st.max_docs_in_memory)
    (hne : tokens ≠ [] ∨ important_tokens ≠ []) :
    (st.addDocument url tokens important_tokens).docs_in_memory < st.max_docs_in_memory ∧
    (st.max_docs_in_memory ≤ st.docs_in_memory + 1 →
      (st.addDocument url tokens important_tokens).docs_in_memory = 0 ∧
      (st.addDocument url tokens important_tokens).index = [] ∧
      (st.addDocument url tokens important_tokens).partial_index_count =
        st.partial_index_count + 1 ∧
      (st.addDocument url tokens important_tokens).partialIndexFiles =
        st.partialIndexFiles ++
          [(partialIndexFileName st.partial_index_count,
            updateIndexWithDoc st.index ((alookup st.doc_ids url).getD st.next_doc_id)
              tokens important_tokens)] ∧
      (st.addDocument url tokens important_tokens).partialMappingFiles =
        st.partialMappingFiles ++
          [(partialMappingFileName st.partial_index_count,
            ⟨(st.addDocument url tokens important_tokens).doc_ids,
             (st.addDocument url tokens important_tokens).doc_id_to_url⟩)]) := by
  by_cases hsp : st.max_docs_in_memory ≤ st.docs_in_memory + 1
  · have heq := addDocument_of_spill st url tokens important_tokens hsp
    have hidx : (st.updateInMemory url tokens important_tokens).index ≠ [] := by
      rw [updateInMemory_index]
      exact updateIndexWithDoc_ne_nil _ _ _ _ hne
    constructor
    · rw [heq, offloadToDisk_docs_of_ne _ hidx]
      exact hpos
    · intro _
      refine ⟨?_, ?_, ?_, ?_, ?_⟩
      · rw [heq, offloadToDisk_docs_of_ne _ hidx]
      · rw [heq, offloadToDisk_index_of_ne _ hidx]
      · rw [heq, offloadToDisk_count_of_ne _ hidx, updateInMemory_count]
      · rw [heq, offloadToDisk_files_of_ne _ hidx, updateInMemory_files,
          updateInMemory_count, updateInMemory_index]
      · rw [heq, offloadToDisk_mapfiles_of_ne _ hidx, updateInMemory_mapfiles,
          updateInMemory_count, offloadToDisk_doc_ids, offloadToDisk_doc_id_to_url]
  · have heq := addDocument_of_no_spill st url tokens important_tokens hsp
    constructor
    · rw [heq, updateInMemory_docs]
      exact Nat.lt_of_not_le hsp
    · intro hcon
      exact absurd hcon hsp

/-- Witness for C6 at threshold 1 with a one-token document. -/
theorem claim_C6_spill_behavior_witness :
    ((initBuilder 1).addDocument wU [wX] []).docs_in_memory <
        (initBuilder 1).max_docs_in_memory ∧
    ((initBuilder 1).max_docs_in_memory ≤ (initBuilder 1).docs_in_memory + 1 →
      ((initBuilder 1).addDocument wU [wX] []).docs_in_memory = 0 ∧
      ((initBuilder 1).addDocument wU [wX] []).index = [] ∧
      ((initBuilder 1).addDocument wU [wX] []).partial_index_count =
        (initBuilder 1).partial_index_count + 1 ∧
      ((initBuilder 1).addDocument wU [wX] []).partialIndexFiles =
        (initBuilder 1).partialIndexFiles ++
          [(partialIndexFileName (initBuilder 1).partial_index_count,
            updateIndexWithDoc (initBuilder 1).index
              ((alookup (initBuilder 1).doc_ids wU).getD (initBuilder 1).next_doc_id)
              [wX] [])] ∧
      ((initBuilder 1).addDocument wU [wX] []).partialMappingFiles =
        (initBuilder 1).partialMappingFiles ++
          [(partialMappingFileName (initBuilder 1).partial_index_count,
            ⟨((initBuilder 1).addDocument wU [wX] []).doc_ids,
             ((initBuilder 1).addDocument wU [wX] []).doc_id_to_url⟩)]) :=
  claim_C6_spill_behavior (initBuilder 1) wU [wX] [] (by decide) (Or.inl (by decide))

theorem finalize_files (st : DiskBasedIndexer) : (st.finalize).partialIndexFiles = [] := by
  simp [DiskBasedIndexer.finalize]

theorem finalize_mapfiles (st : DiskBasedIndexer) : (st.finalize).partialMappingFiles = [] := by
  simp [DiskBasedIndexer.finalize]

theorem finalize_dir (st : DiskBasedIndexer) : (st.finalize).partialDirExists = false := by
  simp [DiskBasedIndexer.finalize]

theorem finalize_index_isSome (st : DiskBasedIndexer) :
    (st.finalize).finalIndexFile.isSome = true := by
  simp [DiskBasedIndexer.finalize]

theorem finalize_mapping_isSome (st : DiskBasedIndexer) :
    (st.finalize).finalDocMappingFile.isSome = true := by
  simp [DiskBasedIndexer.finalize]

theorem finalize_count (st : DiskBasedIndexer) :
    (st.finalize).partial_index_count =
      if st.index = [] then st.partial_index_count else st.partial_index_count + 1 := by
  by_cases h : st.index = []
  · simp [DiskBasedIndexer.finalize, h]
  · simp [DiskBasedIndexer.finalize, h, offloadToDisk_count_of_ne st h]

/-- Invariant maintained by a build in which every document carries at
least one token: the spill counter, in-memory counter and written segment
files stay in lock-step with the number of processed documents. -/
def GoodBuild (T n : Nat) (st : DiskBasedIndexer) : Prop :=
  st.max_docs_in_memory = T ∧
  st.partial_index_count * T + st.docs_in_memory = n ∧
  st.docs_in_memory < T ∧
  (0 < st.docs_in_memory → st.index ≠ []) ∧
  st.partialIndexFiles.length = st.partial_index_count

theorem goodBuild_step (T n : Nat) (hT : 0 < T) (st : DiskBasedIndexer)
    (hg : GoodBuild T n st) (url : String) (tokens important_tokens : List String)
    (hne : tokens ≠ [] ∨ important_tokens ≠ []) :
    GoodBuild T (n + 1) (st.addDocument url tokens important_tokens) := by
  obtain ⟨hmax, hn, hlt, hidx, hlen⟩ := hg
  by_cases hsp : st.max_docs_in_memory ≤ st.docs_in_memory + 1
  · have heq := addDocument_of_spill st url tokens important_tokens hsp
    have hidx2 : (st.updateInMemory url tokens important_tokens).index ≠ [] := by
      rw [updateInMemory_index]
      exact updateIndexWithDoc_ne_nil _ _ _ _ hne
    have hdT : st.docs_in_memory + 1 = T := by omega
    refine ⟨?_, ?_, ?_, ?_, ?_⟩
    · rw [heq, offloadToDisk_max, updateInMemory_max]
      exact hmax
    · rw [heq, offloadToDisk_count_of_ne _ hidx2, offloadToDisk_docs_of_ne _ hidx2,
        updateInMemory_count, Nat.succ_mul]
      omega
    · rw [heq, offloadToDisk_docs_of_ne _ hidx2]
      exact hT
    · rw [heq, offloadToDisk_docs_of_ne _ hidx2]
      intro hcon
      exact absurd hcon (by omega)
    · rw [heq, offloadToDisk_files_of_ne _ hidx2, offloadToDisk_count_of_ne _ hidx2,
        updateInMemory_files, updateInMemory_count, List.length_append]
      simp [hlen]
  · have heq := addDocument_of_no_spill st url tokens important_tokens hsp
    refine ⟨?_, ?_, ?_, ?_, ?_⟩
    · rw [heq, updateInMemory_max]
      exact hmax
    · rw [heq, updateInMemory_docs, updateInMemory_count]
      omega
    · rw [heq, updateInMemory_docs]
      omega
    · rw [heq, updateInMemory_docs, updateInMemory_index]
      intro _
      exact updateIndexWithDoc_ne_nil _ _ _ _ hne
    · rw [heq, updateInMemory_files, updateInMemory_count]
      exact hlen

theorem goodBuild_fold (T : Nat) (hT : 0 < T)
    (docs : List (String × List String × List String))
    (hdocs : ∀ r ∈ docs, r.2.1 ≠ [] ∨ r.2.2 ≠ []) :
    ∀ st n, GoodBuild T n st →
      GoodBuild T (n + docs.length)
        (docs.foldl (fun st doc => DiskBasedIndexer.addDocument st doc.1 doc.2.1 doc.2.2) st) := by
  induction docs with
  | nil =>
    intro st n hg
    simpa using hg
  | cons r rest ih =>
    intro st n hg
    have hr := hdocs r (List.mem_cons_self _ _)
    have hrest : ∀ x ∈ rest, x.2.1 ≠ [] ∨ x.2.2 ≠ [] :=
      fun x h => hdocs x (List.mem_cons_of_mem _ h)
    have hstep := goodBuild_step T n hT st hg r.1 r.2.1 r.2.2 hr
    have := ih hrest (st.addDocument r.1 r.2.1 r.2.2) (n + 1) hstep
    simp only [List.foldl_cons, List.length_cons]
    have harith : n + (rest.length + 1) = n + 1 + rest.length := by omega
    rw [harith]
    exact this

theorem buildIndex_good (T : Nat) (hT : 0 < T)
    (docs : List (String × List String × List String))
    (hdocs : ∀ r ∈ docs, r.2.1 ≠ [] ∨ r.2.2 ≠ []) :
    GoodBuild T docs.length (buildIndex T docs) := by
  have hinit : GoodBuild T 0 (initBuilder T) := by
    refine ⟨rfl, by simp [initBuilder], hT, ?_, rfl⟩
    intro hcon
    exact absurd hcon (by simp [initBuilder])
  have := goodBuild_fold T hT docs hdocs (initBuilder T) 0 hinit
  simpa [buildIndex] using this

theorem ceilDiv_eq_count (T c dm : Nat) (hT : 0 < T) (hdm : dm < T) :
    (c * T + dm + T - 1) / T = c + (if dm = 0 then 0 else 1) := by
  by_cases h0 : dm = 0
  · subst h0
    have h1 : c * T + 0 + T - 1 = (T - 1) + T * c := by
      rw [Nat.mul_comm c T]
      omega
    rw [h1, Nat.add_mul_div_left _ _ hT, Nat.div_eq_of_lt (by omega)]
    simp
  · have h1 : c * T + dm + T - 1 = (dm - 1) + T * (c + 1) := by
      rw [Nat.mul_succ, Nat.mul_comm T c]
      omega
    rw [h1, Nat.add_mul_div_left _ _ hT, Nat.div_eq_of_lt (by omega)]
    simp [h0]

/-- C7 counterexample: two documents with no tokens and threshold 1 —
`total_docs = 2 > 1` yet no segment file is ever written (the spill
early-returns on the empty accumulator), so the segment count falls short
of `ceil(total_docs / threshold) = 2`. -/
theorem claim_C7_counterexample :
    ¬ (((2 : Nat) + 1 - 1) / 1 ≤
        ((buildIndex 1 [(uA, [], []), (uB, [], [])]).finalize).partial_index_count) := by
  decide

/-- C7 (amended): for a build whose documents each carry at least one
token, with positive threshold and `total_docs > threshold`, at least
`ceil(total_docs / threshold)` segment files are written, and after
`finalize` the partial-index directory is gone while the final index and
doc-mapping files exist. -/
theorem claim_C7_spill_count_and_cleanup (T : Nat) (hT : 0 < T)
    (docs : List (String × List String × List String))
    (hdocs : ∀ r ∈ docs, r.2.1 ≠ [] ∨ r.2.2 ≠ []) (hgt : T < docs.length) :
    (docs.length + T - 1) / T ≤ ((buildIndex T docs).finalize).partial_index_count ∧
    ((buildIndex T docs).finalize).partialIndexFiles = [] ∧
    ((buildIndex T docs).finalize).partialMappingFiles = [] ∧
    ((buildIndex T docs).finalize).partialDirExists = false ∧
    ((buildIndex T docs).finalize).finalIndexFile.isSome = true ∧
    ((buildIndex T docs).finalize).finalDocMappingFile.isSome = true := by
  refine ⟨?_, finalize_files _, finalize_mapfiles _, finalize_dir _,
    finalize_index_isSome _, finalize_mapping_isSome _⟩
  obtain ⟨hmax, hn, hlt, hidx, hlen⟩ := buildIndex_good T hT docs hdocs
  rw [finalize_count]
  rw [← hn, ceilDiv_eq_count _ _ _ hT hlt]
  by_cases hdm : (buildIndex T docs).docs_in_memory = 0
  · simp only [hdm, if_pos]
    split <;> omega
  · have : (buildIndex T docs).index ≠ [] := hidx (by omega)
    rw [if_neg this, if_neg hdm]

/-- Witness for C7: three one-token documents with threshold 1 produce
three segment files and a clean final state. -/
theorem claim_C7_spill_count_and_cleanup_witness :
    (([(uA, [wX], []), (uB, [wY], []), (wU, [wZ], [])] :
        List (String × List String × List String)).length + 1 - 1) / 1 ≤
      ((buildIndex 1 [(uA, [wX], []), (uB, [wY], []), (wU, [wZ], [])]).finalize).partial_index_count ∧
    ((buildIndex 1 [(uA, [wX], []), (uB, [wY], []), (wU, [wZ], [])]).finalize).partialIndexFiles = [] ∧
    ((buildIndex 1 [(uA, [wX], []), (uB, [wY], []), (wU, [wZ], [])]).finalize).partialMappingFiles = [] ∧
    ((buildIndex 1 [(uA, [wX], []), (uB, [wY], []), (wU, [wZ], [])]).finalize).partialDirExists = false ∧
    ((buildIndex 1 [(uA, [wX], []), (uB, [wY], []), (wU, [wZ], [])]).finalize).finalIndexFile.isSome = true ∧
    ((buildIndex 1 [(uA, [wX], []), (uB, [wY], []), (wU, [wZ], [])]).finalize).finalDocMappingFile.isSome = true :=
  claim_C7_spill_count_and_cleanup 1 (by decide)
    [(uA, [wX], []), (uB, [wY], []), (wU, [wZ], [])]
    (by decide) (by decide)

theorem updateIndexWithDoc_empty (idx : Index) (d : Nat) :
    updateIndexWithDoc idx d [] [] = idx := rfl

/-- C10 counterexample: an empty-token `add_document` call that lands
exactly on the spill threshold ends with the in-memory counter reset to 0
by the triggered spill of earlier documents, not incremented. -/
theorem claim_C10_counterexample :
    ¬ ((buildIndex 2 [(wV, [wX], []), (wU, [], [])]).docs_in_memory =
        (buildIndex 2 [(wV, [wX], [])]).docs_in_memory + 1) := by
  decide

/-- C10 (amended): `add_document` with both token streams empty and a fresh
URL assigns the next doc-id, records the URL in both direction of the doc
mapping, increments the in-memory counter (when the call does not reach the
spill threshold; a triggered spill instead resets it), leaves the
accumulator unchanged, and bumps `next_doc_id`; consequently — concretely
for a one-empty-document build — the reported document count and final doc
mapping contain a doc-id that occurs in no posting list of the final
index. -/
theorem claim_C10_empty_doc (st : DiskBasedIndexer) (url : String)
    (hfresh : alookup st.doc_ids url = none)
    (hns : ¬ st.max_docs_in_memory ≤ st.docs_in_memory + 1) :
    (st.addDocument url [] []).doc_ids = aupdate st.doc_ids url st.next_doc_id ∧
    alookup (st.addDocument url [] []).doc_ids url = some st.next_doc_id ∧
    alookup (st.addDocument url [] []).doc_id_to_url st.next_doc_id = some url ∧
    (st.addDocument url [] []).docs_in_memory = st.docs_in_memory + 1 ∧
    (st.addDocument url [] []).index = st.index ∧
    (st.addDocument url [] []).next_doc_id = st.next_doc_id + 1 ∧
    getNumDocuments ((buildIndex 10 [(wU, [], [])]).finalize) = 1 ∧
    ((buildIndex 10 [(wU, [], [])]).finalize).finalIndexFile = some [] ∧
    alookup (((buildIndex 10 [(wU, [], [])]).finalize).finalDocMappingFile.getD
      ⟨[], []⟩).url_to_id wU = some 0 := by
  have heq := addDocument_of_no_spill st url [] [] hns
  refine ⟨?_, ?_, ?_, ?_, ?_, ?_, by decide, by decide, by decide⟩
  · rw [heq, updateInMemory_doc_ids_fresh _ _ _ _ hfresh]
  · rw [heq, updateInMemory_doc_ids_fresh _ _ _ _ hfresh, alookup_aupdate_self]
  · rw [heq, updateInMemory_doc_id_to_url_fresh _ _ _ _ hfresh, alookup_aupdate_self]
  · rw [heq, updateInMemory_docs]
  · rw [heq, updateInMemory_index, updateIndexWithDoc_empty]
  · rw [heq, updateInMemory_next_fresh _ _ _ _ hfresh]

/-- Witness for C10 on a fresh builder with threshold 10. -/
theorem claim_C10_empty_doc_witness :
    ((initBuilder 10).addDocument uA [] []).doc_ids =
      aupdate (initBuilder 10).doc_ids uA (initBuilder 10).next_doc_id ∧
    alookup ((initBuilder 10).addDocument uA [] []).doc_ids uA =
      some (initBuilder 10).next_doc_id ∧
    alookup ((initBuilder 10).addDocument uA [] []).doc_id_to_url
      (initBuilder 10).next_doc_id = some uA ∧
    ((initBuilder 10).addDocument uA [] []).docs_in_memory =
      (initBuilder 10).docs_in_memory + 1 ∧
    ((initBuilder 10).addDocument uA [] []).index = (initBuilder 10).index ∧
    ((initBuilder 10).addDocument uA [] []).next_doc_id =
      (initBuilder 10).next_doc_id + 1 ∧
    getNumDocuments ((buildIndex 10 [(wU, [], [])]).finalize) = 1 ∧
    ((buildIndex 10 [(wU, [], [])]).finalize).finalIndexFile = some [] ∧
    alookup (((buildIndex 10 [(wU, [], [])]).finalize).finalDocMappingFile.getD
      ⟨[], []⟩).url_to_id wU = some 0 :=
  claim_C10_empty_doc (initBuilder 10) uA (by decide) (by decide)

/-! Query-engine initialization and lookup errors (C8). -/

def c8idx : Index := [(wX, [(0, ⟨1, false⟩)])]

def c8eng : M3SearchEngine := ⟨some c8idx, [], [], 1⟩

/-- C8 counterexample: constructing the engine with the index file missing
but the doc-mapping file present succeeds — `__init__` only `stat`s the
index file, so its absence is not a fatal initialization error. -/
theorem claim_C8_counterexample :
    M3SearchEngine.init none (some ⟨[], []⟩) = Except.ok ⟨none, [], [], 0⟩ := rfl

/-- C8 (amended): at initialization the fatal error is a missing
doc-mapping file, while a missing index file is tolerated; at lookup time a
missing index file or a term absent from the index yields the empty
mapping, not an error. -/
theorem claim_C8_error_handling (idxF : Option Index) (m : DocMapSnapshot)
    (eng : M3SearchEngine) (t : String)
    (habsent : eng.indexFile = none ∨
      ∃ idx, eng.indexFile = some idx ∧ alookup idx t = none) :
    M3SearchEngine.init idxF none = Except.error docMappingMissingMsg ∧
    M3SearchEngine.init idxF (some m) =
      Except.ok ⟨idxF, m.url_to_id, m.id_to_url, m.url_to_id.length⟩ ∧
    getPostings eng t = [] := by
  refine ⟨rfl, rfl, ?_⟩
  rcases habsent with h | ⟨idx, hidx, hlk⟩
  · unfold getPostings
    rw [h]
  · unfold getPostings
    rw [hidx]
    simp only []
    rw [hlk]
    rfl

/-- Witness for C8: a one-term index and a query for an absent term. -/
theorem claim_C8_error_handling_witness :
    M3SearchEngine.init none none = Except.error docMappingMissingMsg ∧
    M3SearchEngine.init none (some ⟨[], []⟩) =
      Except.ok ⟨none, (DocMapSnapshot.mk [] []).url_to_id,
        (DocMapSnapshot.mk [] []).id_to_url, (DocMapSnapshot.mk [] []).url_to_id.length⟩ ∧
    getPostings c8eng wZ = [] :=
  claim_C8_error_handling none ⟨[], []⟩ c8eng wZ (Or.inr ⟨c8idx, rfl, by decide⟩)

/-! Search lemmas (C1, C2, C5, C9). -/

theorem mem_insertByScoreDesc (x : Nat × ℝ) (l : List (Nat × ℝ)) (z : Nat × ℝ) :
    z ∈ insertByScoreDesc x l ↔ z = x ∨ z ∈ l := by
  induction l with
  | nil => simp [insertByScoreDesc]
  | cons y ys ih =>
    by_cases h : y.2 ≤ x.2
    · simp [insertByScoreDesc, h]
    · simp only [insertByScoreDesc, h, if_false, List.mem_cons, ih]
      tauto

theorem mem_sortByScoreDesc (l : List (Nat × ℝ)) (z : Nat × ℝ) :
    z ∈ sortByScoreDesc l ↔ z ∈ l := by
  induction l with
  | nil => simp [sortByScoreDesc]
  | cons x xs ih => simp [sortByScoreDesc, mem_insertByScoreDesc, ih]

theorem mem_insertByLenAsc (x : String × PostingList) (l : List (String × PostingList))
    (z : String × PostingList) :
    z ∈ insertByLenAsc x l ↔ z = x ∨ z ∈ l := by
  induction l with
  | nil => simp [insertByLenAsc]
  | cons y ys ih =>
    by_cases h : x.2.length ≤ y.2.length
    · simp [insertByLenAsc, h]
    · simp only [insertByLenAsc, h, if_false, List.mem_cons, ih]
      tauto

theorem mem_sortByLenAsc (l : List (String × PostingList)) (z : String × PostingList) :
    z ∈ sortByLenAsc l ↔ z ∈ l := by
  induction l with
  | nil => simp [sortByLenAsc]
  | cons x xs ih => simp [sortByLenAsc, mem_insertByLenAsc, ih]

theorem pairwise_insertByScoreDesc (x : Nat × ℝ) (l : List (Nat × ℝ))
    (h : List.Pairwise (fun a b : Nat × ℝ => b.2 ≤ a.2) l) :
    List.Pairwise (fun a b : Nat × ℝ => b.2 ≤ a.2) (insertByScoreDesc x l) := by
  induction l with
  | nil => simp [insertByScoreDesc]
  | cons y ys ih =>
    rcases List.pairwise_cons.mp h with ⟨hy, hys⟩
    by_cases hc : y.2 ≤ x.2
    · simp only [insertByScoreDesc, hc, if_true]
      refine List.pairwise_cons.mpr ⟨?_, h⟩
      intro z hz
      rcases List.mem_cons.mp hz with hz | hz
      · rw [hz]
        exact hc
      · exact le_trans (hy z hz) hc
    · simp only [insertByScoreDesc, hc, if_false]
      refine List.pairwise_cons.mpr ⟨?_, ih hys⟩
      intro z hz
      rcases (mem_insertByScoreDesc x ys z).mp hz with hz | hz
      · rw [hz]
        exact le_of_not_le hc
      · exact hy z hz

theorem pairwise_sortByScoreDesc (l : List (Nat × ℝ)) :
    List.Pairwise (fun a b : Nat × ℝ => b.2 ≤ a.2) (sortByScoreDesc l) := by
  induction l with
  | nil => simp [sortByScoreDesc]
  | cons x xs ih => exact pairwise_insertByScoreDesc x _ ih

theorem mem_termPostings (eng : M3SearchEngine) (qts : List String)
    (tp : String × PostingList) :
    tp ∈ termPostings eng qts ↔
      tp.1 ∈ qts ∧ tp.2 = getPostings eng tp.1 ∧ tp.2 ≠ [] := by
  unfold termPostings
  rw [List.mem_filterMap]
  constructor
  · rintro ⟨a, ha, hfa⟩
    simp only [] at hfa
    split_ifs at hfa with hempty
    cases hfa
    exact ⟨ha, rfl, hempty⟩
  · rintro ⟨h1, h2, h3⟩
    refine ⟨tp.1, h1, ?_⟩
    simp only []
    rw [← h2, if_neg h3]

theorem termPostings_mem_of (eng : M3SearchEngine) (qts : List String) (t : String)
    (ht : t ∈ qts) (hne : getPostings eng t ≠ []) :
    (t, getPostings eng t) ∈ termPostings eng qts :=
  (mem_termPostings eng qts (t, getPostings eng t)).mpr ⟨ht, rfl, hne⟩

theorem termPostings_eq_nil (eng : M3SearchEngine) (qts : List String)
    (h : ∀ t ∈ qts, getPostings eng t = []) : termPostings eng qts = [] := by
  unfold termPostings
  rw [List.filterMap_eq_nil_iff]
  intro a ha
  simp [h a ha]

theorem candidateDocs_isSome (eng : M3SearchEngine) (qts : List String) (d : Nat)
    (hd : d ∈ candidateDocs eng qts) (tp : String × PostingList)
    (htp : tp ∈ termPostings eng qts) : (alookup tp.2 d).isSome = true := by
  unfold candidateDocs at hd
  cases hs : sortByLenAsc (termPostings eng qts) with
  | nil =>
    rw [hs] at hd
    cases hd
  | cons hd0 rest =>
    rw [hs] at hd
    obtain ⟨t0, p0⟩ := hd0
    rw [List.mem_filter] at hd
    obtain ⟨hmem, hall⟩ := hd
    have hts : tp ∈ sortByLenAsc (termPostings eng qts) := (mem_sortByLenAsc _ _).mpr htp
    rw [hs] at hts
    rcases List.mem_cons.mp hts with h | h
    · rw [h]
      exact (alookup_isSome_iff p0 d).mpr (by simpa using hmem)
    · exact List.all_eq_true.mp hall tp h

theorem candidateDocs_all_terms (eng : M3SearchEngine) (qts : List String) (d : Nat)
    (hd : d ∈ candidateDocs eng qts) (t : String) (ht : t ∈ qts)
    (hne : getPostings eng t ≠ []) : (alookup (getPostings eng t) d).isSome = true :=
  candidateDocs_isSome eng qts d hd (t, getPostings eng t)
    (termPostings_mem_of eng qts t ht hne)

theorem search_mem_structure (eng : M3SearchEngine) (toks : List String) (k : Nat)
    (p : String × ℝ) (hp : p ∈ eng.search toks k) :
    ∃ d, alookup eng.id_to_url d = some p.1 ∧ d ∈ candidateDocs eng (dedup toks) ∧
      p.2 = docScore eng (dedup toks) d := by
  simp only [M3SearchEngine.search] at hp
  split_ifs at hp with h1 h2 h3
  · cases hp
  · cases hp
  · cases hp
  · rw [List.mem_filterMap] at hp
    obtain ⟨ds, hds, hf⟩ := hp
    cases halk : alookup eng.id_to_url ds.1 with
    | none =>
      rw [halk] at hf
      cases hf
    | some url =>
      rw [halk] at hf
      cases hf
      have hds2 := List.mem_of_mem_take hds
      rw [mem_sortByScoreDesc] at hds2
      rw [List.mem_map] at hds2
      obtain ⟨d, hdc, hdd⟩ := hds2
      refine ⟨d, ?_, hdc, ?_⟩
      · rw [← hdd] at halk
        exact halk
      · rw [← hdd]

def c1eng : M3SearchEngine := ⟨some [(wX, [(0, ⟨1, false⟩)])], [], [(0, uA)], 1⟩

theorem c1eng_search_eval :
    c1eng.search [wX, wY] 10 = [(uA, docScore c1eng [wX, wY] 0)] := by
  have hdd : dedup [wX, wY] = [wX, wY] := by decide
  have hcds : candidateDocs c1eng [wX, wY] = [0] := by decide
  simp only [M3SearchEngine.search, hdd, hcds]
  rw [if_neg (by decide), if_neg (by decide), if_neg (by decide)]
  simp only [List.map_cons, List.map_nil, sortByScoreDesc, insertByScoreDesc,
    List.take_succ_cons, List.take_nil, List.filterMap_cons, List.filterMap_nil]
  have halk : alookup c1eng.id_to_url 0 = some uA := by decide
  rw [halk]
  rfl

/-- C1 counterexample: a two-term query where the second term has no
posting list returns a non-empty result — the term is silently dropped
instead of forcing the strict-AND empty result. -/
theorem claim_C1_counterexample :
    getPostings c1eng wY = [] ∧ c1eng.search [wX, wY] 10 ≠ [] := by
  refine ⟨by decide, ?_⟩
  rw [c1eng_search_eval]
  intro hcon
  cases hcon

theorem sortByScoreDesc_pair (a b : Nat × ℝ) (h : b.2 ≤ a.2) :
    sortByScoreDesc [a, b] = [a, b] := by
  simp only [sortByScoreDesc, insertByScoreDesc]
  rw [if_pos h]

/-- Descending sortedness of the final `(url, score)` list, for any scored
candidate list. -/
theorem pairwise_desc_results (eng : M3SearchEngine) (k : Nat) (l : List (Nat × ℝ)) :
    List.Pairwise (fun a b : String × ℝ => b.2 ≤ a.2)
      (((sortByScoreDesc l).take k).filterMap
        (fun ds => (alookup eng.id_to_url ds.1).map (fun url => (url, ds.2)))) := by
  refine List.pairwise_filterMap.mpr ?_
  have hpw : List.Pairwise (fun a b : Nat × ℝ => b.2 ≤ a.2) ((sortByScoreDesc l).take k) :=
    List.Pairwise.sublist (List.take_sublist k _) (pairwise_sortByScoreDesc _)
  refine hpw.imp ?_
  intro a b hab x hx y hy
  cases ha : alookup eng.id_to_url a.1 with
  | none =>
    rw [ha] at hx
    cases hx
  | some ua =>
    rw [ha] at hx
    cases hb : alookup eng.id_to_url b.1 with
    | none =>
      rw [hb] at hy
      cases hy
    | some ub =>
      rw [hb] at hy
      cases hx
      cases hy
      exact hab

/-- Stability of the descending insertion at one score level: the entries
with score `c` of `insertByScoreDesc x l` are those of `x :: l` in order. -/
theorem filter_score_insertByScoreDesc (x : Nat × ℝ) (l : List (Nat × ℝ)) (c : ℝ) :
    (insertByScoreDesc x l).filter (fun y => decide (y.2 = c)) =
      if x.2 = c then x :: l.filter (fun y => decide (y.2 = c))
      else l.filter (fun y => decide (y.2 = c)) := by
  induction l with
  | nil =>
    by_cases hx : x.2 = c <;> simp [insertByScoreDesc, hx]
  | cons y ys ih =>
    by_cases hc : y.2 ≤ x.2
    · have hins : insertByScoreDesc x (y :: ys) = x :: y :: ys := by
        simp only [insertByScoreDesc, if_pos hc]
      rw [hins]
      by_cases hx : x.2 = c <;> simp [List.filter_cons, hx]
    · have hins : insertByScoreDesc x (y :: ys) = y :: insertByScoreDesc x ys := by
        simp only [insertByScoreDesc, if_neg hc]
      rw [hins]
      have hxy : x.2 < y.2 := not_le.mp hc
      rw [List.filter_cons, List.filter_cons, ih]
      by_cases hy : y.2 = c
      · by_cases hx : x.2 = c
        · exact absurd (hx.trans hy.symm) (ne_of_lt hxy)
        · simp [hy, hx]
      · by_cases hx : x.2 = c <;> simp [hy, hx]

/-- Stability of the stable descending sort (Python `sorted` with
`reverse=True`): at each score level the sorted list keeps the input
order. -/
theorem sortByScoreDesc_filter_score (l : List (Nat × ℝ)) (c : ℝ) :
    (sortByScoreDesc l).filter (fun y => decide (y.2 = c)) =
      l.filter (fun y => decide (y.2 = c)) := by
  induction l with
  | nil => rfl
  | cons x xs ih =>
    by_cases hx : x.2 = c <;>
      simp [sortByScoreDesc, filter_score_insertByScoreDesc, hx, ih]

/-- C5 (amended): the result list of `search` is sorted by score in
descending order — for every enumeration order of the candidate set, hence
in particular for the one the Python set produces — and the code applies no
doc-id tie-break: the sort is stable, so equal-score candidates stay in the
candidate-set iteration order (for each score value, the equal-score
entries of the sorted scored list are the equal-score entries of the
enumeration, in the same order), which is not ascending doc-id order. -/
theorem claim_C5_sorted_desc (eng : M3SearchEngine) (toks : List String) (k : Nat)
    (enum : List Nat) (c : ℝ) :
    List.Pairwise (fun a b : String × ℝ => b.2 ≤ a.2) (eng.searchWithEnum toks k enum) ∧
    (sortByScoreDesc (enum.map (fun d => (d, docScore eng (dedup toks) d)))).filter
        (fun y => decide (y.2 = c)) =
      (enum.map (fun d => (d, docScore eng (dedup toks) d))).filter
        (fun y => decide (y.2 = c)) ∧
    List.Pairwise (fun a b : String × ℝ => b.2 ≤ a.2) (eng.search toks k) := by
  refine ⟨?_, sortByScoreDesc_filter_score _ _, ?_⟩
  · simp only [M3SearchEngine.searchWithEnum]
    split_ifs with h1 h2 h3
    · exact List.Pairwise.nil
    · exact List.Pairwise.nil
    · exact List.Pairwise.nil
    · exact pairwise_desc_results eng k _
  · simp only [M3SearchEngine.search]
    split_ifs with h1 h2 h3
    · exact List.Pairwise.nil
    · exact List.Pairwise.nil
    · exact List.Pairwise.nil
    · exact pairwise_desc_results eng k _

def c5eng : M3SearchEngine :=
  ⟨some [(wX, [(8, ⟨1, false⟩), (0, ⟨1, false⟩)])], [], [(8, uB), (0, uA)], 2⟩

theorem c5eng_score_eq : docScore c5eng [wX] 0 = docScore c5eng [wX] 8 := by
  simp [docScore, getPostings, c5eng, alookup, wX]

theorem c5eng_search_eval :
    c5eng.search [wX] 10 =
      [(uB, docScore c5eng [wX] 8), (uA, docScore c5eng [wX] 0)] := by
  have hdd : dedup [wX] = [wX] := by decide
  have hcds : candidateDocs c5eng [wX] = [8, 0] := by decide
  simp only [M3SearchEngine.search, hdd]
  rw [if_neg (by decide), if_neg (by decide), hcds, if_neg (by decide)]
  simp only [List.map_cons, List.map_nil]
  rw [sortByScoreDesc_pair (8, docScore c5eng [wX] 8) (0, docScore c5eng [wX] 0)
    (le_of_eq c5eng_score_eq)]
  have ha8 : alookup c5eng.id_to_url 8 = some uB := by decide
  have ha0 : alookup c5eng.id_to_url 0 = some uA := by decide
  simp only [List.take_succ_cons, List.take_nil, List.filterMap_cons, List.filterMap_nil,
    ha8, ha0, Option.map_some]
  rfl

/-- C5 counterexample: two candidates with equal scores are returned with
doc-id 8 (url `ub`) before doc-id 0 (url `ua`) — the order of the posting
list, not ascending doc-id. -/
theorem claim_C5_counterexample :
    ∃ s : ℝ, c5eng.search [wX] 10 = [(uB, s), (uA, s)] ∧
      alookup c5eng.id_to_url 8 = some uB ∧ alookup c5eng.id_to_url 0 = some uA := by
  refine ⟨docScore c5eng [wX] 8, ?_, by decide, by decide⟩
  rw [c5eng_search_eval, c5eng_score_eq]

def c9eng : M3SearchEngine :=
  ⟨some [(wX, [(5, ⟨1, false⟩), (0, ⟨1, false⟩)])], [], [(5, uA)], 2⟩

/-- The iteration order CPython produces for the candidate set `\x7b5, 0\x7d`:
`hash(0) = 0` and `hash(5) = 5` occupy slots 0 and 5 of the initial
8-slot hash table without collision, so the set iterates as 0 then 5
regardless of insertion order. -/
def c9enum : List Nat := [0, 5]

theorem c9eng_score_eq : docScore c9eng [wX] 5 = docScore c9eng [wX] 0 := by
  simp [docScore, getPostings, c9eng, alookup, wX]

theorem c9eng_search_eval : c9eng.searchWithEnum [wX] 1 c9enum = [] := by
  have hdd : dedup [wX] = [wX] := by decide
  simp only [M3SearchEngine.searchWithEnum, hdd]
  rw [if_neg (by decide), if_neg (by decide), if_neg (by decide)]
  simp only [c9enum, List.map_cons, List.map_nil]
  rw [sortByScoreDesc_pair (0, docScore c9eng [wX] 0) (5, docScore c9eng [wX] 5)
    (le_of_eq c9eng_score_eq)]
  have ha0 : alookup c9eng.id_to_url 0 = none := by decide
  simp [ha0]

theorem length_results_le (eng : M3SearchEngine) (k : Nat) (l : List (Nat × ℝ)) :
    (((sortByScoreDesc l).take k).filterMap
      (fun ds => (alookup eng.id_to_url ds.1).map (fun url => (url, ds.2)))).length ≤ k :=
  le_trans (List.length_filterMap_le _ _) (by simp [List.length_take])

/-- C9: `search(query, top_k)` returns at most `top_k` pairs — for every
enumeration order of the candidate set — and the `top_k` truncation happens
before doc-ids are resolved to URLs: a top-ranked doc-id with no entry in
`id_to_url` is silently dropped, so the call can return fewer than `top_k`
results even when more scored candidates (with mapped URLs) exist.
Concretely, with candidate set `\x7b5, 0\x7d` (iterated by CPython as 0 then 5,
`c9enum`), equal scores, doc 0 unmapped, doc 5 mapped and `top_k = 1`, the
stable sort keeps doc 0 first, the truncation keeps only doc 0, and its
failed URL resolution leaves the result empty. -/
theorem claim_C9_topk_truncation (eng : M3SearchEngine) (toks : List String) (k : Nat)
    (enum : List Nat) :
    (eng.search toks k).length ≤ k ∧
    (eng.searchWithEnum toks k enum).length ≤ k ∧
    c9eng.searchWithEnum [wX] 1 c9enum = [] ∧
    c9enum.Perm (candidateDocs c9eng (dedup [wX])) ∧
    alookup c9eng.id_to_url 5 = some uA := by
  refine ⟨?_, ?_, c9eng_search_eval, by decide, by decide⟩
  · simp only [M3SearchEngine.search]
    split_ifs with h1 h2 h3
    · simp
    · simp
    · simp
    · exact length_results_le eng k _
  · simp only [M3SearchEngine.searchWithEnum]
    split_ifs with h1 h2 h3
    · simp
    · simp
    · simp
    · exact length_results_le eng k _

/-- C1 (amended): every document in the result list lies in the posting
list of every query term whose posting list is non-empty — terms with
empty posting lists are silently dropped from the AND — and search returns
the empty result when every query term's posting list is empty (not when
just one is). -/
theorem claim_C1_and_semantics (eng : M3SearchEngine) (toks : List String) (k : Nat) :
    (∀ p ∈ eng.search toks k, ∃ d,
      alookup eng.id_to_url d = some p.1 ∧
      ∀ t ∈ dedup toks, getPostings eng t ≠ [] →
        (alookup (getPostings eng t) d).isSome = true) ∧
    ((∀ t ∈ dedup toks, getPostings eng t = []) → eng.search toks k = []) := by
  constructor
  · intro p hp
    obtain ⟨d, hurl, hdc, _⟩ := search_mem_structure eng toks k p hp
    exact ⟨d, hurl, fun t ht hne => candidateDocs_all_terms eng _ d hdc t ht hne⟩
  · intro hall
    have htp := termPostings_eq_nil eng (dedup toks) hall
    simp only [M3SearchEngine.search]
    by_cases h1 : dedup toks = []
    · rw [if_pos h1]
    · rw [if_neg h1, if_pos htp]

theorem c1eng_search_single :
    c1eng.search [wX] 10 = [(uA, docScore c1eng [wX] 0)] := by
  have hdd : dedup [wX] = [wX] := by decide
  have hcds : candidateDocs c1eng [wX] = [0] := by decide
  simp only [M3SearchEngine.search, hdd, hcds]
  rw [if_neg (by decide), if_neg (by decide), if_neg (by decide)]
  simp only [List.map_cons, List.map_nil, sortByScoreDesc, insertByScoreDesc,
    List.take_succ_cons, List.take_nil, List.filterMap_cons, List.filterMap_nil]
  have halk : alookup c1eng.id_to_url 0 = some uA := by decide
  rw [halk]
  rfl

/-- Witness for C1 on a singleton index: the one result document is in the
posting list of the one query term, and a query whose only term has no
postings returns the empty result. -/
theorem claim_C1_and_semantics_witness :
    (∃ d, alookup c1eng.id_to_url d = some (uA, docScore c1eng [wX] 0).1 ∧
      ∀ t ∈ dedup [wX], getPostings c1eng t ≠ [] →
        (alookup (getPostings c1eng t) d).isSome = true) ∧
    c1eng.search [wY] 5 = [] :=
  ⟨(claim_C1_and_semantics c1eng [wX] 10).1 (uA, docScore c1eng [wX] 0)
      (by rw [c1eng_search_single]; exact List.mem_singleton_self _),
   (claim_C1_and_semantics c1eng [wY] 5).2 (by decide)⟩

theorem filterMap_eq_map_of_forall_some {α β : Type} (f : α → Option β) (g : α → β)
    (l : List α) (h : ∀ a ∈ l, f a = some (g a)) : l.filterMap f = l.map g := by
  induction l with
  | nil => rfl
  | cons a as ih =>
    rw [List.filterMap_cons, h a (List.mem_cons_self _ _), List.map_cons,
      ih (fun x hx => h x (List.mem_cons_of_mem _ hx))]

theorem calculateEnhancedTfIdf_eq (tf df N : Nat) (imp : Bool) (hdf : df ≠ 0) (hN : N ≠ 0) :
    calculateEnhancedTfIdf tf df N imp =
      (if imp then (2.0 : ℝ) else 1.0) *
      (if 0 < tf then 1 + Real.log (tf : ℝ) else 0) *
      (Real.log ((N + 1) / (df + 1)) + 1) := by
  unfold calculateEnhancedTfIdf
  rw [if_neg (by tauto)]
  cases imp
  · simp only [Bool.false_eq_true, if_false]
    ring
  · simp only [if_true]
    ring

theorem docScore_eq_of_all_matched (eng : M3SearchEngine) (qts : List String) (d : Nat)
    (hq : ∀ t ∈ qts, getPostings eng t ≠ [])
    (hd : ∀ t ∈ qts, (alookup (getPostings eng t) d).isSome = true)
    (hN : 0 < eng.total_docs) :
    docScore eng qts d =
      1.15 * (1 / Real.sqrt qts.length) *
        (qts.map (fun t =>
          (if ((alookup (getPostings eng t) d).getD ⟨0, false⟩).is_important then (2.0 : ℝ)
            else 1.0) *
          (if 0 < ((alookup (getPostings eng t) d).getD ⟨0, false⟩).tf then
            1 + Real.log (((alookup (getPostings eng t) d).getD ⟨0, false⟩).tf : ℝ) else 0) *
          (Real.log ((eng.total_docs + 1) / ((getPostings eng t).length + 1)) + 1))).sum := by
  have hfm : qts.filterMap (fun t =>
      let p := getPostings eng t
      if p = [] then none
      else
        match alookup p d with
        | none => none
        | some posting =>
          some (calculateEnhancedTfIdf posting.tf p.length eng.total_docs
            posting.is_important)) =
      qts.map (fun t =>
        calculateEnhancedTfIdf ((alookup (getPostings eng t) d).getD ⟨0, false⟩).tf
          (getPostings eng t).length eng.total_docs
          ((alookup (getPostings eng t) d).getD ⟨0, false⟩).is_important) := by
    refine filterMap_eq_map_of_forall_some _ _ _ ?_
    intro t ht
    simp only []
    rw [if_neg (hq t ht)]
    cases halk : alookup (getPostings eng t) d with
    | none =>
      have := hd t ht
      rw [halk] at this
      cases this
    | some posting => rfl
  have hmapeq : qts.map (fun t =>
      calculateEnhancedTfIdf ((alookup (getPostings eng t) d).getD ⟨0, false⟩).tf
        (getPostings eng t).length eng.total_docs
        ((alookup (getPostings eng t) d).getD ⟨0, false⟩).is_important) =
      qts.map (fun t =>
        (if ((alookup (getPostings eng t) d).getD ⟨0, false⟩).is_important then (2.0 : ℝ)
          else 1.0) *
        (if 0 < ((alookup (getPostings eng t) d).getD ⟨0, false⟩).tf then
          1 + Real.log (((alookup (getPostings eng t) d).getD ⟨0, false⟩).tf : ℝ) else 0) *
        (Real.log ((eng.total_docs + 1) / ((getPostings eng t).length + 1)) + 1)) := by
    refine List.map_congr_left ?_
    intro t ht
    refine calculateEnhancedTfIdf_eq _ _ _ _ ?_ (Nat.pos_iff_ne_zero.mp hN)
    intro hcon
    exact hq t ht (List.length_eq_zero.mp hcon)
  unfold docScore
  simp only [hfm, hmapeq, List.length_map, eq_self_iff_true, if_true]
  by_cases hq1 : 1 < qts.length
  · rw [if_pos hq1]
    ring
  · rw [if_neg hq1]
    cases hlen : qts.length with
    | zero =>
      have : qts = [] := List.length_eq_zero.mp hlen
      subst this
      simp
    | succ n =>
      have hn : n = 0 := by omega
      subst hn
      norm_num [Real.sqrt_one]
      ring

/-- C2 (amended): when every query term has a non-empty posting list (so no
term is dropped) and the document count is positive, the score `search`
assigns to each surviving candidate equals the spec formula
`1.15 · (1/sqrt(q')) · Σ boost · tf_weight · idf` with `q' = q`.  When some
query term's posting list is empty the code diverges from the formula: no
1.15 bonus is applied and the normalization divides by `sqrt(q)`, not
`sqrt(q')`. -/
theorem claim_C2_score_formula (eng : M3SearchEngine) (toks : List String) (d : Nat)
    (hq : ∀ t ∈ dedup toks, getPostings eng t ≠ [])
    (hN : 0 < eng.total_docs)
    (hd : d ∈ candidateDocs eng (dedup toks)) :
    docScore eng (dedup toks) d = specScore eng (dedup toks) d := by
  have hd2 : ∀ t ∈ dedup toks, (alookup (getPostings eng t) d).isSome = true :=
    fun t ht => candidateDocs_all_terms eng _ d hd t ht (hq t ht)
  rw [docScore_eq_of_all_matched eng _ d hq hd2 hN]
  unfold specScore
  have hfilter : (dedup toks).filter
      (fun t => (alookup (getPostings eng t) d).isSome) = dedup toks :=
    List.filter_eq_self.mpr hd2
  simp only [hfilter]

/-- Witness for C2 on a one-term query over a singleton index. -/
theorem claim_C2_score_formula_witness :
    docScore c1eng (dedup [wX]) 0 = specScore c1eng (dedup [wX]) 0 :=
  claim_C2_score_formula c1eng [wX] 0 (by decide) (by decide) (by decide)

theorem c1eng_docScore_eval :
    docScore c1eng [wX, wY] 0 = 1 / Real.sqrt 2 := by
  have hx : getPostings c1eng wX = [(0, ⟨1, false⟩)] := by decide
  have hy : getPostings c1eng wY = [] := by decide
  have htd : c1eng.total_docs = 1 := rfl
  unfold docScore
  rw [List.filterMap_cons, List.filterMap_cons, List.filterMap_nil]
  simp only [hx, hy, if_pos, if_neg, alookup, Nat.zero_lt_one]
  norm_num [calculateEnhancedTfIdf, Real.log_one, htd]

theorem c1eng_specScore_eval :
    specScore c1eng [wX, wY] 0 = 1.15 := by
  have hx : getPostings c1eng wX = [(0, ⟨1, false⟩)] := by decide
  have hy : getPostings c1eng wY = [] := by decide
  have htd : c1eng.total_docs = 1 := rfl
  unfold specScore
  simp only [hx, hy, List.filter_cons, List.filter_nil, alookup]
  norm_num [hx, hy, alookup, Real.log_one, Real.sqrt_one, htd]

/-- C2 counterexample: document 0 survives the intersection for the query
`[x, y]` (the term `y`, having no postings, is dropped), and the code
assigns it score `1/sqrt(2)` — only the one matching term, no 1.15 bonus,
normalized by `sqrt(q) = sqrt(2)` — while the claimed formula with
`q' = 1` gives `1.15 · (1/sqrt(1)) · 1 = 1.15`. -/
theorem claim_C2_counterexample :
    0 ∈ candidateDocs c1eng (dedup [wX, wY]) ∧
    docScore c1eng (dedup [wX, wY]) 0 ≠ specScore c1eng (dedup [wX, wY]) 0 := by
  have hdd : dedup [wX, wY] = [wX, wY] := by decide
  refine ⟨by decide, ?_⟩
  rw [hdd, c1eng_docScore_eval, c1eng_specScore_eval]
  have hs2 : (1 : ℝ) < Real.sqrt 2 := by
    rw [show (1 : ℝ) = Real.sqrt 1 from (Real.sqrt_one).symm]
    exact Real.sqrt_lt_sqrt (by norm_num) (by norm_num)
  have hlt : (1 : ℝ) / Real.sqrt 2 < 1 :=
    (div_lt_one (lt_trans one_pos hs2)).mpr hs2
  intro hcon
  rw [hcon] at hlt
  norm_num at hlt

end WebEngine
